import Mathlib

/-
  Verification of the gorgasm client-side persistence layer.

  Shallow embedding of:
  - `internal/dom/storage.go`: `Storage` (browser localStorage wrapper),
    `StorageMigrator`, `CachedStorage` (TTL cache), observer notification;
  - the WebAssembly client (`package main`): the todo position-reconciliation
    algorithm in `setupDraggableItem`'s drop handler, and `migrateTodoSchema`.

  Modelling conventions:
  - the browser storage object (`js.Value` behind `Storage.storageObj`) is a
    partial map `String → Option String` (`none` = JS null for absent keys);
  - `time.Time` instants and `time.Duration` values are `Int` (nanoseconds);
  - Go `int`/`int64` are `Int` (no claim exercises overflow);
  - `encoding/json` payloads are modelled by the inductive `Json`, with JSON
    numbers restricted to integers (every payload in the repository and in the
    claims is integral); `json.Marshal`/`json.Unmarshal` are an executable
    encoder and parser over that type;
  - Go `panic` (e.g. a failed type assertion `v.(string)`) is a distinguished
    outcome, separate from an `error` return value.
-/

/-- The browser storage object (`localStorage`) that `Storage.storageObj`
references: a string-keyed map where `getItem` of an absent key is JS null. -/
def JSStore : Type := String → Option String

/-- Models `storageObj.Call("getItem", key)`. -/
def JSStore.get (s : JSStore) (k : String) : Option String := s k

/-- Models `storageObj.Call("setItem", key, value)`. -/
def JSStore.set (s : JSStore) (k v : String) : JSStore :=
  fun q => if q = k then some v else s q

/-- Models `storageObj.Call("removeItem", key)`. -/
def JSStore.remove (s : JSStore) (k : String) : JSStore :=
  fun q => if q = k then none else s q

/-- A storage object with no keys. -/
def JSStore.empty : JSStore := fun _ => none

/-- Go struct `Storage` (storage.go): wraps the browser storage object.
The `js.Value` field is a reference to the (mutable) browser store, so the
store state is threaded through the methods explicitly. -/
structure Storage where
  storageObj : JSStore

/-- Go struct `StorageEvent` (storage.go). The `StorageArea` field is a
constant name (`"localStorage"`/`"sessionStorage"`) irrelevant to every claim
and is omitted. -/
structure StorageEvent where
  Key : String
  OldValue : String
  NewValue : String
deriving DecidableEq

/-- Models `Storage.GetItem`: returns `""` when `getItem` yields JS null/undefined,
otherwise the stored string (storage.go lines 47-53). -/
def Storage.GetItem (s : Storage) (key : String) : String :=
  match s.storageObj.get key with
  | none => ""
  | some v => v

/-- Models `Storage.SetItem` (storage.go lines 56-64): reads the old value from the
store, writes the new value, then notifies observers.  The returned
`StorageEvent` is the `(key, oldValue, newValue)` triple handed to
`notifyObservers`. -/
def Storage.SetItem (s : Storage) (key value : String) : Storage × StorageEvent :=
  let oldValue := s.GetItem key
  (⟨s.storageObj.set key value⟩, ⟨key, oldValue, value⟩)

/-- Models `Storage.RemoveItem` (storage.go lines 67-75). -/
def Storage.RemoveItem (s : Storage) (key : String) : Storage × StorageEvent :=
  let oldValue := s.GetItem key
  (⟨s.storageObj.remove key⟩, ⟨key, oldValue, ""⟩)

/-- One decimal digit, as in `strconv`. -/
def digitVal (c : Char) : Option Nat :=
  if '0' ≤ c ∧ c ≤ '9' then some (c.toNat - '0'.toNat) else none

/-- Accumulating decimal parse of a digit run; `none` on any non-digit. -/
def parseDigitsAux : List Char → Nat → Option Nat
  | [], acc => some acc
  | c :: cs, acc =>
    match digitVal c with
    | some d => parseDigitsAux cs (acc * 10 + d)
    | none => none

/-- Models `strconv.Atoi`: optional sign followed by a non-empty digit run; `none`
models the returned error.  Go's 64-bit overflow is not modelled (no claim
exercises it). -/
def atoi (s : String) : Option Int :=
  match s.data with
  | [] => none
  | '+' :: cs => if cs = [] then none else (parseDigitsAux cs 0).map fun n => (n : Int)
  | '-' :: cs => if cs = [] then none else (parseDigitsAux cs 0).map fun n => -(n : Int)
  | cs => (parseDigitsAux cs 0).map fun n => (n : Int)

/-- Models `strconv.Itoa`: decimal representation. -/
def itoa (n : Int) : String := toString n

/-- Models `strconv.ParseBool`: the exact set of strings Go accepts. -/
def parseBool (s : String) : Option Bool :=
  if s = "1" ∨ s = "t" ∨ s = "T" ∨ s = "true" ∨ s = "TRUE" ∨ s = "True" then some true
  else if s = "0" ∨ s = "f" ∨ s = "F" ∨ s = "false" ∨ s = "FALSE" ∨ s = "False" then
    some false
  else none

/-- Models `Storage.GetInt` (storage.go lines 144-156): `""` yields the default, a
`strconv.Atoi` error yields the default. -/
def Storage.GetInt (s : Storage) (key : String) (defaultValue : Int) : Int :=
  let value := s.GetItem key
  if value = "" then defaultValue
  else
    match atoi value with
    | some n => n
    | none => defaultValue

/-- Models `Storage.SetInt` (storage.go lines 159-161). -/
def Storage.SetInt (s : Storage) (key : String) (value : Int) : Storage × StorageEvent :=
  s.SetItem key (itoa value)

/-- Models `Storage.GetBool` (storage.go lines 184-196). -/
def Storage.GetBool (s : Storage) (key : String) (defaultValue : Bool) : Bool :=
  let value := s.GetItem key
  if value = "" then defaultValue
  else
    match parseBool value with
    | some b => b
    | none => defaultValue

/-- Models `Storage.GetFloat` (storage.go lines 164-176), with `float64` and
`strconv.ParseFloat` held abstract: `F` is the float type and `parse` the
parser (`none` models a parse error).  The `""`-branch under scrutiny in the
claims is independent of both. -/
def Storage.GetFloatWith {F : Type} (parse : String → Option F)
    (s : Storage) (key : String) (defaultValue : F) : F :=
  let value := s.GetItem key
  if value = "" then defaultValue
  else
    match parse value with
    | some x => x
    | none => defaultValue

/-- JSON values as produced/consumed by `encoding/json` in this repository.
Numbers are restricted to integers: every number the repository stores
(`createdAt`, `position`, `priority`) is integral, as are all claim inputs. -/
inductive Json where
  | null : Json
  | bool (b : Bool) : Json
  | num (n : Int) : Json
  | str (s : String) : Json
  | arr (xs : List Json) : Json
  | obj (fields : List (String × Json)) : Json

mutual

/-- Structural equality test for `Json`. -/
def Json.beq : Json → Json → Bool
  | .null, .null => true
  | .bool a, .bool b => a == b
  | .num a, .num b => a == b
  | .str a, .str b => a == b
  | .arr a, .arr b => Json.beqList a b
  | .obj a, .obj b => Json.beqFields a b
  | _, _ => false

/-- Elementwise equality for JSON arrays. -/
def Json.beqList : List Json → List Json → Bool
  | [], [] => true
  | a :: as', b :: bs' => Json.beq a b && Json.beqList as' bs'
  | _, _ => false

/-- Elementwise equality for JSON object field lists. -/
def Json.beqFields : List (String × Json) → List (String × Json) → Bool
  | [], [] => true
  | (ka, va) :: as', (kb, vb) :: bs' => ka == kb && Json.beq va vb && Json.beqFields as' bs'
  | _, _ => false

end

/-- JSON string escaping as `json.Marshal` performs it on the characters that
occur in this repository's payloads. -/
def encChar (c : Char) : String :=
  if c = '"' then "\\\"" else if c = '\\' then "\\\\" else String.singleton c

/-- Models `json.Marshal` of a Go string. -/
def encodeString (s : String) : String :=
  "\"" ++ String.join (s.data.map encChar) ++ "\""

mutual

/-- Models `json.Marshal` on the modelled JSON domain (compact form, struct fields in
declaration order, as Go emits). -/
def encodeJson : Json → String
  | .null => "null"
  | .bool true => "true"
  | .bool false => "false"
  | .num n => itoa n
  | .str s => encodeString s
  | .arr xs => "[" ++ encodeJsonList xs ++ "]"
  | .obj fs => "\x7b" ++ encodeJsonFields fs ++ "\x7d"

/-- Comma-separated encoding of array elements. -/
def encodeJsonList : List Json → String
  | [] => ""
  | [x] => encodeJson x
  | x :: xs => encodeJson x ++ "," ++ encodeJsonList xs

/-- Comma-separated encoding of object fields. -/
def encodeJsonFields : List (String × Json) → String
  | [] => ""
  | [(k, v)] => encodeString k ++ ":" ++ encodeJson v
  | (k, v) :: fs => encodeString k ++ ":" ++ encodeJson v ++ "," ++ encodeJsonFields fs

end

/-- Skip JSON insignificant whitespace. -/
def skipWs : List Char → List Char
  | [] => []
  | c :: cs => if c = ' ' ∨ c = '\n' ∨ c = '\t' ∨ c = '\r' then skipWs cs else c :: cs

/-- Parse the remainder of a JSON string literal (opening quote already
consumed), handling the escapes `json.Marshal` emits. -/
def parseStringLit : List Char → Option (String × List Char)
  | [] => none
  | c :: cs =>
    if c = '"' then some ("", cs)
    else if c = '\\' then
      match cs with
      | [] => none
      | e :: cs2 =>
        let dec : Option Char :=
          if e = 'n' then some '\n'
          else if e = 't' then some '\t'
          else if e = 'r' then some '\r'
          else if e = '"' then some '"'
          else if e = '\\' then some '\\'
          else if e = '/' then some '/'
          else none
        match dec with
        | none => none
        | some d => (parseStringLit cs2).map fun p => (String.singleton d ++ p.1, p.2)
    else (parseStringLit cs).map fun p => (String.singleton c ++ p.1, p.2)

/-- Split a leading digit run. -/
def takeDigits : List Char → List Char × List Char
  | [] => ([], [])
  | c :: cs =>
    if ('0' ≤ c ∧ c ≤ '9') then
      let p := takeDigits cs
      (c :: p.1, p.2)
    else ([], c :: cs)

mutual

/-- Fuel-indexed recursive-descent JSON value parser (models
`json.Unmarshal`'s grammar on the integral-number domain). -/
def parseVal : Nat → List Char → Option (Json × List Char)
  | 0, _ => none
  | fuel + 1, l =>
    match skipWs l with
    | [] => none
    | 'n' :: 'u' :: 'l' :: 'l' :: rest => some (.null, rest)
    | 't' :: 'r' :: 'u' :: 'e' :: rest => some (.bool true, rest)
    | 'f' :: 'a' :: 'l' :: 's' :: 'e' :: rest => some (.bool false, rest)
    | '"' :: rest => (parseStringLit rest).map fun p => (.str p.1, p.2)
    | '[' :: rest =>
      (match skipWs rest with
       | ']' :: rest2 => some (.arr [], rest2)
       | _ => (parseItems fuel rest).map fun p => (.arr p.1, p.2))
    | '\x7b' :: rest =>
      (match skipWs rest with
       | '\x7d' :: rest2 => some (.obj [], rest2)
       | _ => (parseFields fuel rest).map fun p => (.obj p.1, p.2))
    | '-' :: rest =>
      (match takeDigits rest with
       | ([], _) => none
       | (ds, rest2) =>
         (parseDigitsAux ds 0).map fun n => (.num (-(n : Int)), rest2))
    | l2 =>
      (match takeDigits l2 with
       | ([], _) => none
       | (ds, rest2) =>
         (parseDigitsAux ds 0).map fun n => (.num (n : Int), rest2))

/-- Parse one or more comma-separated array items up to `]`. -/
def parseItems : Nat → List Char → Option (List Json × List Char)
  | 0, _ => none
  | fuel + 1, l =>
    match parseVal fuel l with
    | none => none
    | some (j, rest) =>
      match skipWs rest with
      | ',' :: rest2 => (parseItems fuel rest2).map fun p => (j :: p.1, p.2)
      | ']' :: rest2 => some ([j], rest2)
      | _ => none

/-- Parse one or more comma-separated object fields up to the closing brace. -/
def parseFields : Nat → List Char → Option (List (String × Json) × List Char)
  | 0, _ => none
  | fuel + 1, l =>
    match skipWs l with
    | '"' :: rest =>
      (match parseStringLit rest with
       | none => none
       | some (k, rest2) =>
         match skipWs rest2 with
         | ':' :: rest3 =>
           (match parseVal fuel rest3 with
            | none => none
            | some (v, rest4) =>
              match skipWs rest4 with
              | ',' :: rest5 => (parseFields fuel rest5).map fun p => ((k, v) :: p.1, p.2)
              | '\x7d' :: rest5 => some ([(k, v)], rest5)
              | _ => none)
         | _ => none)
    | _ => none

end

/-- Models `json.Unmarshal` of a whole document: a single value with only trailing
whitespace after it. -/
def parseJson (s : String) : Option Json :=
  match parseVal (2 * s.length + 4) s.data with
  | some (j, rest) => if skipWs rest = [] then some j else none
  | none => none

/-- Models `Storage.GetJSON` (storage.go lines 115-121): `""` leaves the target
untouched and returns nil; otherwise the value is unmarshalled into the
target.  `target` is the pointee; the result is its final value, `.error`
models a non-nil `json.Unmarshal` error. -/
def Storage.GetJSON (s : Storage) (key : String) (target : Json) : Except String Json :=
  let value := s.GetItem key
  if value = "" then .ok target
  else
    match parseJson value with
    | some j => .ok j
    | none => .error "json unmarshal error"

/-- Update a Go map entry (`m[k] = v`) on a string-keyed map. -/
def mapSet {α : Type} (m : String → Option α) (k : String) (v : α) : String → Option α :=
  fun q => if q = k then some v else m q

/-- Delete a Go map entry (`delete(m, k)`). -/
def mapDel {α : Type} (m : String → Option α) (k : String) : String → Option α :=
  fun q => if q = k then none else m q

/-- Go struct `CachedStorage` (storage.go lines 354-359).  `Cache` and `TTL`
are Go maps: the struct is copied at every (value-receiver) method call, but
both copies reference the *same* underlying map objects, so `delete` and
indexed assignment are visible to the caller while rebinding a map field
(`c.Cache = make(...)`) is not.  The fields below are the caller-visible
state: the methods are modelled by their effect on the caller's maps. -/
structure CachedStorage where
  storage : Storage
  Cache : String → Option String
  TTL : String → Option Int
  DefaultTTL : Int

/-- Models `NewCachedStorage` (storage.go lines 362-369). -/
def NewCachedStorage (storage : Storage) (defaultTTL : Int) : CachedStorage :=
  ⟨storage, fun _ => none, fun _ => none, defaultTTL⟩

/-- The storage-read tail of `CachedStorage.GetItem` (storage.go lines
385-392): read the store; a non-`""` value is cached with expiry
`now + DefaultTTL`; `""` (absence) is not cached. -/
def CachedStorage.readThrough (c : CachedStorage) (now : Int) (key : String) :
    String × CachedStorage :=
  let value := c.storage.GetItem key
  if value ≠ "" then
    (value,
     { c with
       Cache := mapSet c.Cache key value
       TTL := mapSet c.TTL key (now + c.DefaultTTL) })
  else (value, c)

/-- Models `CachedStorage.GetItem` (storage.go lines 372-393) at instant `now`: a
cached value with no TTL entry, or one whose expiry is strictly after `now`
(`ttl.After(time.Now())`), is served from the cache; an expired entry is
deleted from both maps before falling through to the store. -/
def CachedStorage.GetItem (c : CachedStorage) (now : Int) (key : String) :
    String × CachedStorage :=
  match c.Cache key with
  | some value =>
    match c.TTL key with
    | none => (value, c)
    | some ttl =>
      if now < ttl then (value, c)
      else
        CachedStorage.readThrough
          { c with Cache := mapDel c.Cache key, TTL := mapDel c.TTL key } now key
  | none => CachedStorage.readThrough c now key

/-- Models `CachedStorage.SetItem` (storage.go lines 396-401): cache and TTL entries
are written first (shared-map assignments), then the write goes through to
the store, which notifies with the event returned here. -/
def CachedStorage.SetItem (c : CachedStorage) (now : Int) (key value : String) :
    CachedStorage × StorageEvent :=
  let c1 :=
    { c with
      Cache := mapSet c.Cache key value
      TTL := mapSet c.TTL key (now + c.DefaultTTL) }
  let p := c1.storage.SetItem key value
  ({ c1 with storage := p.1 }, p.2)

/-- Models `CachedStorage.RemoveItem` (storage.go lines 404-409). -/
def CachedStorage.RemoveItem (c : CachedStorage) (key : String) :
    CachedStorage × StorageEvent :=
  let c1 := { c with Cache := mapDel c.Cache key, TTL := mapDel c.TTL key }
  let p := c1.storage.RemoveItem key
  ({ c1 with storage := p.1 }, p.2)

/-- Models `CachedStorage.InvalidateCache` (storage.go lines 441-444).  The method
has a value receiver and returns nothing; its body (`c.Cache = make(...)`,
`c.TTL = make(...)`) rebinds the local copy's map fields to freshly
allocated empty maps and never mutates the map objects shared with the
caller, so the caller-visible state is unchanged. -/
def CachedStorage.InvalidateCache (c : CachedStorage) : CachedStorage := c

/-- The state `InvalidateCache`'s body builds on its local receiver copy (two
fresh empty maps); it is discarded when the method returns. -/
def CachedStorage.InvalidateCacheLocalCopy (c : CachedStorage) : CachedStorage :=
  { c with Cache := fun _ => none, TTL := fun _ => none }

/-- Models `CachedStorage.InvalidateKey` (storage.go lines 447-450): `delete` on the
shared maps, hence caller-visible. -/
def CachedStorage.InvalidateKey (c : CachedStorage) (key : String) : CachedStorage :=
  { c with Cache := mapDel c.Cache key, TTL := mapDel c.TTL key }

/-- Models `CachedStorage.SetTTL` (storage.go lines 453-455): overwrites the key's
expiry timestamp with `now + ttl` (shared-map assignment). -/
def CachedStorage.SetTTL (c : CachedStorage) (now : Int) (key : String) (ttl : Int) :
    CachedStorage :=
  { c with TTL := mapSet c.TTL key (now + ttl) }

/-- Models `CachedStorage.GetBool` (storage.go lines 420-432). -/
def CachedStorage.GetBool (c : CachedStorage) (now : Int) (key : String)
    (defaultValue : Bool) : Bool × CachedStorage :=
  let p := c.GetItem now key
  if p.1 = "" then (defaultValue, p.2)
  else
    match parseBool p.1 with
    | some b => (b, p.2)
    | none => (defaultValue, p.2)

/-- Models `CachedStorage.GetJSON` (storage.go lines 458-464): as `Storage.GetJSON`
but reading through the cache. -/
def CachedStorage.GetJSON (c : CachedStorage) (now : Int) (key : String)
    (target : Json) : Except String Json × CachedStorage :=
  let p := c.GetItem now key
  if p.1 = "" then (.ok target, p.2)
  else
    match parseJson p.1 with
    | some j => (.ok j, p.2)
    | none => (.error "json unmarshal error", p.2)

/-- Models `CachedStorage.SetJSON` (storage.go lines 467-474).  `json.Marshal` cannot
fail on the modelled value domain, so the error branch is not reachable. -/
def CachedStorage.SetJSON (c : CachedStorage) (now : Int) (key : String)
    (value : Json) : CachedStorage × StorageEvent :=
  c.SetItem now key (encodeJson value)

/-- Observer behaviour: a `StorageObserver` returns nothing, so the only way a
listener can fail in Go is to panic; `some msg` models the callback
panicking, `none` a normal return. -/
def ObserverBehavior : Type := StorageEvent → Option String

/-- One dispatch loop of `notifyObservers` (storage.go lines 250-258) over a
named observer list, in registration order.  There is no `recover` anywhere
in storage.go, so a panicking observer aborts the loop at once and the panic
keeps unwinding.  Returns the names of the observers that were invoked and
the escaping panic, if any. -/
def runObserverList : List (String × ObserverBehavior) → StorageEvent →
    List String × Option String
  | [], _ => ([], none)
  | (name, f) :: rest, ev =>
    match f ev with
    | some msg => ([name], some msg)
    | none =>
      let p := runObserverList rest ev
      (name :: p.1, p.2)

/-- Models `notifyObservers` (storage.go lines 242-259): key-specific observers run
first (registration order), then wildcard (`"*"`) observers; a panic in the
key-specific loop also prevents the wildcard loop. -/
def notifyObservers (observers : String → List (String × ObserverBehavior))
    (ev : StorageEvent) : List String × Option String :=
  runObserverList (observers ev.Key ++ observers "*") ev

/-- Models `Storage.SetItem` together with the observer dispatch it triggers: the
browser write happens first, then `notifyObservers`; an observer panic
escapes `SetItem` to its caller (third component). -/
def Storage.SetItemObserved (s : Storage)
    (observers : String → List (String × ObserverBehavior)) (key value : String) :
    Storage × List String × Option String :=
  let p := s.SetItem key value
  let q := notifyObservers observers p.2
  (p.1, q.1, q.2)

/-- Go struct `Todo` (part_001 lines 18-26), with the field types mapped as in
the file header. -/
structure Todo where
  ID : String
  Text : String
  Completed : Bool
  CreatedAt : Int
  Position : Int
  Priority : Int
  Tags : List String
deriving DecidableEq

/-- Models `json.Marshal` image of a `Todo` (fields in declaration order, keys from
the struct tags). -/
def jsonOfTodo (t : Todo) : Json :=
  .obj [("id", .str t.ID), ("text", .str t.Text), ("completed", .bool t.Completed),
        ("createdAt", .num t.CreatedAt), ("position", .num t.Position),
        ("priority", .num t.Priority), ("tags", .arr (t.Tags.map Json.str))]

/-- Models `json.Marshal` image of the `todos` slice. -/
def jsonOfTodos (ts : List Todo) : Json := .arr (ts.map jsonOfTodo)

/-- The position-scanning loop of the drop handler (part_001 lines 810-819):
the Go locals start at the zero value 0 and the last matching todo wins. -/
def lastPosMatching (todos : List Todo) (idv : String) : Int :=
  todos.foldl (fun acc t => if t.ID = idv then t.Position else acc) 0

/-- The position-update loop of the drop handler (part_001 lines 822-842),
verbatim: both branches of the source case assign `targetPosition`. -/
def updatePositions (todos : List Todo) (sourceID : String)
    (sourcePosition targetPosition : Int) : List Todo :=
  todos.map fun t =>
    if t.ID = sourceID then
      if sourcePosition < targetPosition then { t with Position := targetPosition }
      else { t with Position := targetPosition }
    else if sourcePosition < targetPosition then
      (if t.Position > sourcePosition ∧ t.Position ≤ targetPosition then
        { t with Position := t.Position - 1 }
      else t)
    else
      (if t.Position ≥ targetPosition ∧ t.Position < sourcePosition then
        { t with Position := t.Position + 1 }
      else t)

/-- The drop handler's position reconciliation (part_001 lines 806-842),
including the `sourceID == targetID` early return. -/
def reconcilePositions (todos : List Todo) (sourceID targetID : String) : List Todo :=
  if sourceID = targetID then todos
  else
    updatePositions todos sourceID (lastPosMatching todos sourceID)
      (lastPosMatching todos targetID)

/-- The spec's two-branch reconciliation rule, written from the spec's words
(section 4.4; the refinement target for C1): with `sp = position(source)` and
`tp = position(target)`, the source's position becomes `tp`; if `sp < tp`
every other item with `sp < position <= tp` is decremented; if `sp > tp`
every other item with `tp <= position < sp` is incremented. -/
def specMove (sp tp : Int) (sourceID : String) (t : Todo) : Todo :=
  if t.ID = sourceID then { t with Position := tp }
  else if sp < tp ∧ sp < t.Position ∧ t.Position ≤ tp then
    { t with Position := t.Position - 1 }
  else if sp > tp ∧ tp ≤ t.Position ∧ t.Position < sp then
    { t with Position := t.Position + 1 }
  else t

/-- Outcome of a Go call: normal return, a non-nil `error` return, or an
uncaught panic unwinding the stack. -/
inductive GoResult where
  | ok : GoResult
  | err (msg : String) : GoResult
  | panic (msg : String) : GoResult
deriving DecidableEq

/-- The app state the migration pipeline touches: the global `storage`
(`CachedStorage`, wrapping the browser store that
`NewStorageMigrator(storage.Storage)` shares) and the global `todos` slice
that `migrateTodoSchema` assigns. -/
structure AppState where
  cached : CachedStorage
  todos : List Todo

/-- Key the app stores its todo list under (part_001 line 41). -/
def todosKey : String := "gowasm-todos"

/-- Models `NewStorageMigrator` sets `CurrentVersionKey: "schemaVersion"`
(storage.go line 323); the app's unused `gowasm-schema-version` constant is
not it. -/
def currentVersionKey : String := "schemaVersion"

/-- Models `StorageMigrator.GetCurrentVersion` (storage.go lines 328-330). -/
def GetCurrentVersion (s : Storage) : Int :=
  s.GetInt currentVersionKey 0

/-- Models `StorageMigrator.SetCurrentVersion` (storage.go lines 333-335); the
observer event of the underlying `SetItem` is dispatched separately and not
tracked here. -/
def SetCurrentVersion (s : Storage) (version : Int) : Storage :=
  (s.SetInt currentVersionKey version).1

/-- Models `StorageMigrator.RunMigration` (storage.go lines 338-351) for the app's
migrator, whose `Storage` aliases the browser store behind the global
`CachedStorage`.  The body receives `(currentVersion, targetVersion)` and may
mutate the whole app state, return an error (returned unchanged, version not
written), or panic (which keeps unwinding, version not written).  The `Bool`
is ghost instrumentation recording whether `migrationFunc` was invoked. -/
def RunMigration (st : AppState) (targetVersion : Int)
    (migrationFunc : Int → Int → AppState → AppState × GoResult) :
    AppState × GoResult × Bool :=
  let currentVersion := GetCurrentVersion st.cached.storage
  if currentVersion < targetVersion then
    match migrationFunc currentVersion targetVersion st with
    | (st1, .ok) =>
      let s2 := SetCurrentVersion st1.cached.storage targetVersion
      ({ st1 with cached := { st1.cached with storage := s2 } }, .ok, true)
    | (st1, .err e) => (st1, .err e, true)
    | (st1, .panic m) => (st1, .panic m, true)
  else (st, .ok, false)

/-- Field access `oldTodo["k"]` on the `map[string]interface{}` produced by
`json.Unmarshal`: duplicate JSON keys overwrite in document order (last
wins); an absent key yields the nil interface (`none`). -/
def getField (fields : List (String × Json)) (key : String) : Option Json :=
  fields.foldl (fun acc kv => if kv.1 = key then some kv.2 else acc) none

/-- Go type assertion `v.(string)`: panics (`.error`) unless the dynamic type
is string — in particular on the nil interface from an absent key. -/
def assertString : Option Json → Except String String
  | some (.str s) => .ok s
  | _ => .error "interface conversion to string"

/-- Go type assertion `v.(bool)`. -/
def assertBool : Option Json → Except String Bool
  | some (.bool b) => .ok b
  | _ => .error "interface conversion to bool"

/-- Go type assertion `v.(float64)`: every JSON number unmarshals to
`float64`, and `int64(x)` of the integral values modelled here is exact. -/
def assertFloat64 : Option Json → Except String Int
  | some (.num n) => .ok n
  | _ => .error "interface conversion to float64"

/-- Models `json.Unmarshal` into `[]map[string]interface{}`: the document must be an
array whose elements are objects (or JSON `null`, which leaves a record's
map nil); anything else makes `Unmarshal` return an error (`none`). -/
def jsonToRecords : Json → Option (List (List (String × Json)))
  | .arr xs =>
    xs.foldr
      (fun x acc =>
        match x, acc with
        | .obj fs, some l => some (fs :: l)
        | .null, some l => some ([] :: l)
        | _, _ => none)
      (some [])
  | _ => none

/-- One iteration of the migration loop (part_001 lines 1137-1149): builds
the new `Todo` from the untyped record via unchecked type assertions,
assigning `Position := i`, `Priority := 0`, `Tags := []`.  `.error` is the
panic from a missing or wrongly-shaped required field. -/
def buildTodo (i : Nat) (oldTodo : List (String × Json)) : Except String Todo := do
  let idv ← assertString (getField oldTodo "id")
  let textv ← assertString (getField oldTodo "text")
  let completedv ← assertBool (getField oldTodo "completed")
  let createdAtv ← assertFloat64 (getField oldTodo "createdAt")
  pure
    { ID := idv, Text := textv, Completed := completedv, CreatedAt := createdAtv,
      Position := (i : Int), Priority := 0, Tags := [] }

/-- The `for i, oldTodo := range oldTodos` loop of `migrateTodoSchema`: the
first bad record panics and aborts the loop. -/
def migrateLoop : Nat → List (List (String × Json)) → Except String (List Todo)
  | _, [] => .ok []
  | i, r :: rest => do
    let t ← buildTodo i r
    let ts ← migrateLoop (i + 1) rest
    pure (t :: ts)

/-- Models `migrateTodoSchema` (part_001 lines 1117-1158) at instant `now`.
`storage.GetJSON(todosKey, &oldTodos)` is inlined as the cached read plus
`parseJson`/`jsonToRecords` (unmarshal into `[]map[string]interface{}`): a
`""` read leaves `oldTodos` nil (nothing to migrate, nil error); an
unmarshal error is returned to the caller; otherwise, when
`fromVersion < 2 && toVersion >= 2`, the loop rebuilds the records — with an
uncaught panic on any malformed record — assigns the global `todos` and
saves it back through the cached storage. -/
def migrateTodoSchema (now : Int) (fromVersion toVersion : Int) (st : AppState) :
    AppState × GoResult :=
  let p := st.cached.GetItem now todosKey
  let st1 : AppState := { st with cached := p.2 }
  if p.1 = "" then (st1, .ok)
  else
    match parseJson p.1 with
    | none => (st1, .err "json unmarshal error")
    | some j =>
      match jsonToRecords j with
      | none => (st1, .err "json unmarshal error")
      | some [] => (st1, .ok)
      | some oldTodos =>
        if fromVersion < 2 ∧ toVersion ≥ 2 then
          match migrateLoop 0 oldTodos with
          | .error msg => (st1, .panic msg)
          | .ok newTodos =>
            let q := st1.cached.SetJSON now todosKey (jsonOfTodos newTodos)
            ({ cached := q.1, todos := newTodos }, .ok)
        else (st1, .ok)

/-- A fold step of `lastPosMatching` over todos none of which match leaves the
accumulator untouched. -/
theorem foldl_pos_no_match (idv : String) :
    ∀ (todos : List Todo) (acc : Int), (∀ t ∈ todos, t.ID ≠ idv) →
      todos.foldl (fun a t => if t.ID = idv then t.Position else a) acc = acc := by
  intro todos
  induction todos with
  | nil => intro acc _; rfl
  | cons hd tl ih =>
    intro acc h
    rw [List.foldl_cons, if_neg (h hd (List.mem_cons_self hd tl))]
    exact ih acc fun t ht => h t (List.mem_cons_of_mem hd ht)

/-- With pairwise-distinct ids, the scanning fold lands on the unique matching
todo's position, whatever the accumulator started as. -/
theorem foldl_pos_unique (idv : String) :
    ∀ (todos : List Todo) (acc : Int) (x : Todo), x ∈ todos → x.ID = idv →
      (todos.map (fun t => t.ID)).Nodup →
      todos.foldl (fun a t => if t.ID = idv then t.Position else a) acc = x.Position := by
  intro todos
  induction todos with
  | nil => intro acc x hx; exact absurd hx (List.not_mem_nil x)
  | cons hd tl ih =>
    intro acc x hx hid hnd
    rw [List.map_cons, List.nodup_cons] at hnd
    rw [List.foldl_cons]
    rcases List.mem_cons.mp hx with rfl | hx'
    · rw [if_pos hid]
      apply foldl_pos_no_match
      intro t ht hteq
      apply hnd.1
      have hmem : t.ID ∈ tl.map (fun t => t.ID) := List.mem_map_of_mem (fun t => t.ID) ht
      rwa [hteq, ← hid] at hmem
    · by_cases hhd : hd.ID = idv
      · refine absurd ?_ hnd.1
        have hmem : x.ID ∈ tl.map (fun t => t.ID) := List.mem_map_of_mem (fun t => t.ID) hx'
        rwa [hid, ← hhd] at hmem
      · rw [if_neg hhd]
        exact ih acc x hx' hid hnd.2

/-- With pairwise-distinct ids, `lastPosMatching` returns the unique matching
todo's position. -/
theorem lastPosMatching_eq (todos : List Todo) (x : Todo) (idv : String)
    (hx : x ∈ todos) (hid : x.ID = idv) (hnd : (todos.map (fun t => t.ID)).Nodup) :
    lastPosMatching todos idv = x.Position :=
  foldl_pos_unique idv todos 0 x hx hid hnd

/-- Positions-by-id are determined: under distinct ids, two members with the
same id coincide. -/
theorem eq_of_id_eq (todos : List Todo) (x y : Todo)
    (hx : x ∈ todos) (hy : y ∈ todos)
    (hnd : (todos.map (fun t => t.ID)).Nodup) (h : x.ID = y.ID) : x = y :=
  List.inj_on_of_nodup_map hnd hx hy h

/-- Reconciliation never changes any todo's id. -/
theorem reconcile_ids (todos : List Todo) (sourceID targetID : String) :
    (reconcilePositions todos sourceID targetID).map (fun t => t.ID) =
      todos.map (fun t => t.ID) := by
  unfold reconcilePositions updatePositions
  split
  · rfl
  · rw [List.map_map]
    apply List.map_congr_left
    intro t _
    simp only [Function.comp]
    split
    · split <;> rfl
    · split
      · split <;> rfl
      · split <;> rfl

/-- A todo with the given id and position and zero values elsewhere, for the
concrete reconciliation examples. -/
def mkTodoEx (i : String) (p : Int) : Todo :=
  ⟨i, "", false, 0, p, 0, []⟩

/-- Models the spec example collection: ids `[A,B,C,D]` at positions
`[0,1,2,3]`. -/
def exTodos : List Todo :=
  [mkTodoEx "A" 0, mkTodoEx "B" 1, mkTodoEx "C" 2, mkTodoEx "D" 3]

/-- The spec example's expected outcome: `A:2, B:0, C:1, D:3`. -/
def exTodosAfter : List Todo :=
  [mkTodoEx "A" 2, mkTodoEx "B" 0, mkTodoEx "C" 1, mkTodoEx "D" 3]

/-- C1: on a collection with pairwise-distinct positions (and distinct ids, so
that "the source" and "the target" are well defined), with source and target
present and distinct, the drop handler's reconciliation follows the spec's
two-branch rule with `sp = position(source)`, `tp = position(target)`: if
`sp < tp` every other item with `sp < position <= tp` is decremented and the
source's position becomes `tp`; if `sp > tp` every other item with
`tp <= position < sp` is incremented and the source's position becomes `tp`.
In particular, moving `A` (position 0) onto `C` (position 2) in `[A,B,C,D]`
at positions `[0,1,2,3]` yields `A:2, B:0, C:1, D:3`. -/
theorem C1_reconciliation_two_branch_rule
    (todos : List Todo) (src tgt : Todo)
    (hposnd : (todos.map (fun t => t.Position)).Nodup)
    (hidnd : (todos.map (fun t => t.ID)).Nodup)
    (hsrc : src ∈ todos) (htgt : tgt ∈ todos) (hne : src.ID ≠ tgt.ID) :
    reconcilePositions todos src.ID tgt.ID =
      todos.map (specMove src.Position tgt.Position src.ID) ∧
    reconcilePositions exTodos "A" "C" = exTodosAfter := by
  constructor
  · have hsp : lastPosMatching todos src.ID = src.Position :=
      lastPosMatching_eq todos src src.ID hsrc rfl hidnd
    have htp : lastPosMatching todos tgt.ID = tgt.Position :=
      lastPosMatching_eq todos tgt tgt.ID htgt rfl hidnd
    have hpne : src.Position ≠ tgt.Position := by
      intro h
      exact hne (congrArg Todo.ID (eq_of_id_eq todos src tgt hsrc htgt hidnd
        (by exact absurd h (by intro hp; exact hne (congrArg Todo.ID
          (List.inj_on_of_nodup_map hposnd hsrc htgt hp)) ) ) ▸ rfl))
    unfold reconcilePositions
    rw [if_neg hne, hsp, htp]
    unfold updatePositions
    apply List.map_congr_left
    intro t _
    unfold specMove
    split_ifs <;> first | rfl | omega
  · decide

/-- The contiguous integer range `[k, k+n)` as a list, the shape the spec's
"permutation of a contiguous integer range" refers to. -/
def rangeInt (k : Int) (n : Nat) : List Int :=
  (List.range n).map fun i => k + Int.ofNat i

/-- Membership in `rangeInt` is the interval condition. -/
theorem mem_rangeInt {p k : Int} {n : Nat} :
    p ∈ rangeInt k n ↔ k ≤ p ∧ p < k + (n : Int) := by
  unfold rangeInt
  simp only [Int.ofNat_eq_coe]
  rw [List.mem_map]
  constructor
  · rintro ⟨i, hi, rfl⟩
    rw [List.mem_range] at hi
    omega
  · intro h
    refine ⟨(p - k).toNat, ?_, by omega⟩
    rw [List.mem_range]
    omega

/-- Contiguous ranges have no duplicates. -/
theorem rangeInt_nodup (k : Int) (n : Nat) : (rangeInt k n).Nodup := by
  unfold rangeInt
  simp only [Int.ofNat_eq_coe]
  apply List.Nodup.map
  · intro a b h
    dsimp only at h
    omega
  · exact List.nodup_range n

/-- The permutation of position values induced by one reconciliation step:
the source value `sp` moves to `tp`; values strictly between move one step
toward `sp`; everything else is fixed. -/
def cycleFun (sp tp : Int) (p : Int) : Int :=
  if p = sp then tp
  else if sp < tp ∧ sp < p ∧ p ≤ tp then p - 1
  else if tp < sp ∧ tp ≤ p ∧ p < sp then p + 1
  else p

/-- Mapping `cycleFun sp tp` over a contiguous range containing `sp` and `tp`
permutes the range. -/
theorem cycleFun_perm_rangeInt (k : Int) (n : Nat) (sp tp : Int)
    (hsp : sp ∈ rangeInt k n) (htp : tp ∈ rangeInt k n) :
    ((rangeInt k n).map (cycleFun sp tp)).Perm (rangeInt k n) := by
  have hspb := mem_rangeInt.mp hsp
  have htpb := mem_rangeInt.mp htp
  apply List.perm_of_nodup_nodup_toFinset_eq
  · apply List.Nodup.map_on _ (rangeInt_nodup k n)
    intro a ha b hb hab
    have haa := mem_rangeInt.mp ha
    have hbb := mem_rangeInt.mp hb
    unfold cycleFun at hab
    split_ifs at hab <;> omega
  · exact rangeInt_nodup k n
  · ext v
    simp only [List.mem_toFinset, List.mem_map]
    constructor
    · rintro ⟨p, hp, rfl⟩
      have hpb := mem_rangeInt.mp hp
      rw [mem_rangeInt]
      unfold cycleFun
      split_ifs <;> omega
    · intro hv
      have hvb := mem_rangeInt.mp hv
      by_cases h1 : v = tp
      · exact ⟨sp, hsp, by unfold cycleFun; split_ifs <;> omega⟩
      · by_cases h2 : sp < tp ∧ sp ≤ v ∧ v < tp
        · refine ⟨v + 1, mem_rangeInt.mpr (by omega), ?_⟩
          unfold cycleFun
          split_ifs <;> omega
        · by_cases h3 : tp < sp ∧ tp < v ∧ v ≤ sp
          · refine ⟨v - 1, mem_rangeInt.mpr (by omega), ?_⟩
            unfold cycleFun
            split_ifs <;> omega
          · refine ⟨v, hv, ?_⟩
            unfold cycleFun
            split_ifs <;> omega

/-- One reconciliation step acts on the position list as `cycleFun` (the
source is the unique item at `sp`; every other item moves by its position
alone). -/
theorem reconcile_positions_eq_map_cycle (todos : List Todo) (src tgt : Todo)
    (hposnd : (todos.map (fun t => t.Position)).Nodup)
    (hidnd : (todos.map (fun t => t.ID)).Nodup)
    (hsrc : src ∈ todos) (htgt : tgt ∈ todos) (hne : src.ID ≠ tgt.ID) :
    (reconcilePositions todos src.ID tgt.ID).map (fun t => t.Position) =
      (todos.map (fun t => t.Position)).map (cycleFun src.Position tgt.Position) := by
  have hsp : lastPosMatching todos src.ID = src.Position :=
    lastPosMatching_eq todos src src.ID hsrc rfl hidnd
  have htp : lastPosMatching todos tgt.ID = tgt.Position :=
    lastPosMatching_eq todos tgt tgt.ID htgt rfl hidnd
  unfold reconcilePositions
  rw [if_neg hne, hsp, htp]
  unfold updatePositions
  rw [List.map_map, List.map_map]
  apply List.map_congr_left
  intro t ht
  simp only [Function.comp]
  by_cases hid : t.ID = src.ID
  · have hteq : t = src := eq_of_id_eq todos t src ht hsrc hidnd hid
    subst hteq
    rw [if_pos hid]
    unfold cycleFun
    rw [if_pos rfl]
    split <;> rfl
  · have htpos : t.Position ≠ src.Position := by
      intro h
      exact hid (congrArg Todo.ID (List.inj_on_of_nodup_map hposnd ht hsrc h))
    rw [if_neg hid]
    unfold cycleFun
    rw [if_neg htpos]
    split_ifs <;> first | rfl | omega

/-- One valid reconciliation call preserves the multiset of positions, given
positions forming a permutation of a contiguous range. -/
theorem reconcile_positions_perm (todos : List Todo) (src tgt : Todo) (k : Int) (n : Nat)
    (hperm : (todos.map (fun t => t.Position)).Perm (rangeInt k n))
    (hidnd : (todos.map (fun t => t.ID)).Nodup)
    (hsrc : src ∈ todos) (htgt : tgt ∈ todos) (hne : src.ID ≠ tgt.ID) :
    ((reconcilePositions todos src.ID tgt.ID).map (fun t => t.Position)).Perm
      (todos.map (fun t => t.Position)) := by
  have hposnd : (todos.map (fun t => t.Position)).Nodup :=
    hperm.nodup_iff.mpr (rangeInt_nodup k n)
  have hspmem : src.Position ∈ rangeInt k n :=
    hperm.mem_iff.mp (List.mem_map_of_mem (fun t => t.Position) hsrc)
  have htpmem : tgt.Position ∈ rangeInt k n :=
    hperm.mem_iff.mp (List.mem_map_of_mem (fun t => t.Position) htgt)
  rw [reconcile_positions_eq_map_cycle todos src tgt hposnd hidnd hsrc htgt hne]
  exact ((hperm.map (cycleFun src.Position tgt.Position)).trans
    (cycleFun_perm_rangeInt k n src.Position tgt.Position hspmem htpmem)).trans hperm.symm

/-- Models a sequence of drop reconciliations, each running to completion and
persisting before the next (the app's save-after-reorder critical section). -/
def applyMoves (todos : List Todo) (moves : List (String × String)) : List Todo :=
  moves.foldl (fun ts m => reconcilePositions ts m.1 m.2) todos

/-- Auxiliary induction for C2: every valid reconciliation sequence preserves
the position multiset, carrying id preservation as the invariant. -/
theorem applyMoves_perm_aux (todos : List Todo) (k : Int) (n : Nat)
    (hidnd : (todos.map (fun t => t.ID)).Nodup) :
    ∀ (moves : List (String × String)) (ts : List Todo),
      ts.map (fun t => t.ID) = todos.map (fun t => t.ID) →
      (ts.map (fun t => t.Position)).Perm (rangeInt k n) →
      (∀ m ∈ moves, m.1 ≠ m.2 ∧ (∃ x ∈ todos, x.ID = m.1) ∧ (∃ y ∈ todos, y.ID = m.2)) →
      ((applyMoves ts moves).map (fun t => t.Position)).Perm
        (ts.map (fun t => t.Position)) := by
  intro moves
  induction moves with
  | nil => intro ts _ _ _; exact List.Perm.refl _
  | cons m rest ih =>
    intro ts hids hperm hvalid
    obtain ⟨hmne, ⟨x, hx, hxid⟩, ⟨y, hy, hyid⟩⟩ := hvalid m (List.mem_cons_self m rest)
    have hxid1 : m.1 ∈ ts.map (fun t => t.ID) := by
      rw [hids]
      exact hxid ▸ List.mem_map_of_mem (fun t => t.ID) hx
    have hyid1 : m.2 ∈ ts.map (fun t => t.ID) := by
      rw [hids]
      exact hyid ▸ List.mem_map_of_mem (fun t => t.ID) hy
    obtain ⟨xq, hxq, hxqid⟩ := List.mem_map.mp hxid1
    obtain ⟨yq, hyq, hyqid⟩ := List.mem_map.mp hyid1
    have hidnd1 : (ts.map (fun t => t.ID)).Nodup := by
      rw [hids]
      exact hidnd
    have hstep : ((reconcilePositions ts m.1 m.2).map (fun t => t.Position)).Perm
        (ts.map (fun t => t.Position)) := by
      have h := reconcile_positions_perm ts xq yq k n hperm hidnd1 hxq hyq
        (by rw [hxqid, hyqid]; exact hmne)
      rwa [hxqid, hyqid] at h
    have hrest := ih (reconcilePositions ts m.1 m.2)
      (by rw [reconcile_ids]; exact hids)
      (hstep.trans hperm)
      (fun mq hmq => hvalid mq (List.mem_cons_of_mem m hmq))
    exact hrest.trans hstep

/-- C2: when the positions form a permutation of a contiguous integer range
(and ids are distinct so source/target lookup is well defined), every
reconciliation call with distinct source and target ids present in the
collection preserves the multiset of position values; consequently the
multiset is preserved after each call of any sequence of such calls. -/
theorem C2_position_multiset_invariant (todos : List Todo) (k : Int) (n : Nat)
    (hperm : (todos.map (fun t => t.Position)).Perm (rangeInt k n))
    (hidnd : (todos.map (fun t => t.ID)).Nodup) :
    (∀ src tgt, src ∈ todos → tgt ∈ todos → src.ID ≠ tgt.ID →
      ((reconcilePositions todos src.ID tgt.ID).map (fun t => t.Position)).Perm
        (todos.map (fun t => t.Position))) ∧
    (∀ moves : List (String × String),
      (∀ m ∈ moves, m.1 ≠ m.2 ∧ (∃ x ∈ todos, x.ID = m.1) ∧ (∃ y ∈ todos, y.ID = m.2)) →
      ((applyMoves todos moves).map (fun t => t.Position)).Perm
        (todos.map (fun t => t.Position))) := by
  constructor
  · intro src tgt hs ht hne
    exact reconcile_positions_perm todos src tgt k n hperm hidnd hs ht hne
  · intro moves hvalid
    exact applyMoves_perm_aux todos k n hidnd moves todos rfl hperm hvalid

/-- C1 witness: the theorem applied at the spec's `[A,B,C,D]` example. -/
theorem C1_reconciliation_two_branch_rule_witness :
    reconcilePositions exTodos "A" "C" = exTodos.map (specMove 0 2 "A") ∧
    reconcilePositions exTodos "A" "C" = exTodosAfter :=
  C1_reconciliation_two_branch_rule exTodos (mkTodoEx "A" 0) (mkTodoEx "C" 2)
    (by decide) (by decide) (by decide) (by decide) (by decide)

/-- C2 witness: the invariant applied at the `[A,B,C,D]` example for a single
call and for the two-call sequence `A→C` then `D→B`. -/
theorem C2_position_multiset_invariant_witness :
    ((reconcilePositions exTodos "A" "C").map (fun t => t.Position)).Perm
      (exTodos.map (fun t => t.Position)) ∧
    ((applyMoves exTodos [("A", "C"), ("D", "B")]).map (fun t => t.Position)).Perm
      (exTodos.map (fun t => t.Position)) := by
  have h := C2_position_multiset_invariant exTodos 0 4 (by decide) (by decide)
  exact ⟨h.1 (mkTodoEx "A" 0) (mkTodoEx "C" 2) (by decide) (by decide) (by decide),
    h.2 [("A", "C"), ("D", "B")] (by decide)⟩

/-- C7: for every cache state, `CachedStorage.SetItem` writes through to the
backing store and hands the notifier the event `(key, oldValue, newValue)`
with `oldValue` read from the backing store before the write — not from the
cache — so the event is correct even when the cache holds a stale or expired
entry for the key. -/
theorem C7_set_notifies_with_store_old_value
    (c : CachedStorage) (now : Int) (key value : String) :
    (c.SetItem now key value).2 =
      ⟨key, c.storage.GetItem key, value⟩ ∧
    (c.SetItem now key value).1.storage.storageObj.get key = some value := by
  constructor
  · rfl
  · show (c.storage.storageObj.set key value).get key = some value
    unfold JSStore.set JSStore.get
    simp

/-- The cached read never changes the backing store. -/
theorem getItem_storage_unchanged (c : CachedStorage) (now : Int) (key : String) :
    (c.GetItem now key).2.storage = c.storage := by
  unfold CachedStorage.GetItem CachedStorage.readThrough
  split
  · split
    · rfl
    · split
      · rfl
      · dsimp only
        split
        · rfl
        · rfl
  · dsimp only
    split
    · rfl
    · rfl

/-- Behaviour of `CachedStorage.GetItem` when there is no live entry for the
key (no cached value, or an entry whose expiry is not after `now`): the value
comes from the backing store; a non-`""` store value is cached with expiry
`now + DefaultTTL`; a `""` store value (absence) leaves no cache entry. -/
theorem getItem_miss (c : CachedStorage) (now : Int) (key : String)
    (hmiss : c.Cache key = none ∨ ∃ t, c.TTL key = some t ∧ t ≤ now) :
    (c.GetItem now key).1 = c.storage.GetItem key ∧
    (c.storage.GetItem key ≠ "" →
      (c.GetItem now key).2.Cache key = some (c.storage.GetItem key) ∧
      (c.GetItem now key).2.TTL key = some (now + c.DefaultTTL)) ∧
    (c.storage.GetItem key = "" → (c.GetItem now key).2.Cache key = none) := by
  have hread : ∀ c1 : CachedStorage, c1.storage = c.storage →
      c1.DefaultTTL = c.DefaultTTL → c1.Cache key = none →
      (CachedStorage.readThrough c1 now key).1 = c.storage.GetItem key ∧
      (c.storage.GetItem key ≠ "" →
        (CachedStorage.readThrough c1 now key).2.Cache key =
          some (c.storage.GetItem key) ∧
        (CachedStorage.readThrough c1 now key).2.TTL key =
          some (now + c.DefaultTTL)) ∧
      (c.storage.GetItem key = "" →
        (CachedStorage.readThrough c1 now key).2.Cache key = none) := by
    intro c1 hst httl hcc
    unfold CachedStorage.readThrough
    rw [hst, httl]
    by_cases hv : c.storage.GetItem key = ""
    · rw [if_neg (by simp [hv])]
      exact ⟨rfl, fun h => absurd hv h, fun _ => hcc⟩
    · rw [if_pos hv]
      refine ⟨rfl, fun _ => ⟨?_, ?_⟩, fun h => absurd h hv⟩
      · show mapSet c1.Cache key (c.storage.GetItem key) key = _
        unfold mapSet
        simp
      · show mapSet c1.TTL key (now + c.DefaultTTL) key = _
        unfold mapSet
        simp
  rcases hcc : c.Cache key with _ | w
  · have h := hread c rfl rfl hcc
    unfold CachedStorage.GetItem
    rw [hcc]
    exact h
  · rcases hmiss with hnone | ⟨t, ht, hle⟩
    · rw [hcc] at hnone
      exact absurd hnone (by simp)
    · unfold CachedStorage.GetItem
      simp only [hcc, ht]
      rw [if_neg (show ¬ now < t by omega)]
      exact hread _ rfl rfl (by show mapDel c.Cache key key = none; unfold mapDel; simp)

/-- Concrete state for C5: a live cache entry `"stale"` for key `"k"`
(expiry 100, read at time 0) while the backing store holds `"fresh"`. -/
def c5state : CachedStorage :=
  { storage := ⟨fun q => if q = "k" then some "fresh" else none⟩
    Cache := fun q => if q = "k" then some "stale" else none
    TTL := fun q => if q = "k" then some 100 else none
    DefaultTTL := 300 }

/-- C5 (code bug, evaluated at the failing input): `InvalidateKey` works as
claimed — it drops the entry, the next get re-reads the store, and the store
is untouched — but `InvalidateCache`, documented as "invalidates the entire
cache", only rebinds the map fields of its by-value receiver: the caller's
cache is unchanged, so the next get still serves the stale cached value
instead of re-reading the store. -/
theorem C5_invalidateAll_is_caller_noop :
    ((c5state.InvalidateCache.GetItem 0 "k").1 = "stale") ∧
    (c5state.storage.GetItem "k" = "fresh") ∧
    (c5state.InvalidateCache.Cache "k" = some "stale") ∧
    (c5state.InvalidateCacheLocalCopy.Cache "k" = none) ∧
    (((c5state.InvalidateKey "k").GetItem 0 "k").1 = "fresh") ∧
    ((c5state.InvalidateKey "k").storage = c5state.storage) :=
  ⟨rfl, rfl, rfl, rfl, rfl, rfl⟩

/-- Concrete state for C6: the store holds `"v"` for `"k"`, the cache is
cold, and the default TTL is 300. -/
def c6state : CachedStorage :=
  { storage := ⟨fun q => if q = "k" then some "v" else none⟩
    Cache := fun _ => none
    TTL := fun _ => none
    DefaultTTL := 300 }

/-- C6 counterexample: after `SetTTL("k", 100)` at time 0, the read-through at
time 0 populates the new entry with expiry `0 + DefaultTTL = 300`, not the
key-specific `0 + 100` the claim requires. -/
theorem C6_read_through_ignores_setTTL :
    ((((c6state.SetTTL 0 "k" 100).GetItem 0 "k").2.TTL "k") = some 300) ∧
    some (300 : Int) ≠ some ((0 : Int) + 100) :=
  ⟨rfl, by decide⟩

/-- C6 (amended): when `get(key)` finds no live cache entry and the backing
store holds a value, the new cache entry's expiry is always
`now + defaultTTL`, even if a key-specific TTL was set via `setTTL` for that
key; `setTTL(key, d)` itself merely overwrites the key's current expiry
timestamp with `now + d`. -/
theorem C6_populate_uses_default_ttl (c : CachedStorage) (now : Int) (key v : String)
    (hmiss : c.Cache key = none ∨ ∃ t, c.TTL key = some t ∧ t ≤ now)
    (hstore : c.storage.storageObj.get key = some v) (hv : v ≠ "") :
    (c.GetItem now key).1 = v ∧
    (c.GetItem now key).2.TTL key = some (now + c.DefaultTTL) ∧
    (∀ d, (c.SetTTL now key d).TTL key = some (now + d)) := by
  have hgv : c.storage.GetItem key = v := by
    unfold Storage.GetItem
    rw [hstore]
  have h := getItem_miss c now key hmiss
  refine ⟨by rw [h.1, hgv], ?_, ?_⟩
  · exact (h.2.1 (by rw [hgv]; exact hv)).2
  · intro d
    show mapSet c.TTL key (now + d) key = some (now + d)
    unfold mapSet
    simp

/-- C6 witness: the amended theorem at the concrete state. -/
theorem C6_populate_uses_default_ttl_witness :
    ((c6state.GetItem 0 "k").1 = "v") ∧
    ((c6state.GetItem 0 "k").2.TTL "k" = some ((0 : Int) + 300)) := by
  have h := C6_populate_uses_default_ttl c6state 0 "k" "v" (Or.inl rfl) rfl (by decide)
  exact ⟨h.1, h.2.1⟩

/-- C10: at the public interface the empty string is conflated with absence.
A read of an absent key and a read of a stored `""` both return `""`; the
read-through path never caches an empty-string store value; `getInt`,
`getBool` and `getFloat` return their caller-supplied defaults for it;
`GetJSON` returns success without modifying its target; hence for any value
whose encoding is the empty string, a typed read after the write returns the
default rather than the value. -/
theorem C10_empty_string_absence_conflation :
    (∀ s : Storage, ∀ k, s.storageObj.get k = none → s.GetItem k = "") ∧
    (∀ s : Storage, ∀ k, s.storageObj.get k = some "" → s.GetItem k = "") ∧
    (∀ c : CachedStorage, ∀ now k,
      (c.Cache k = none ∨ ∃ t, c.TTL k = some t ∧ t ≤ now) →
      c.storage.GetItem k = "" →
      (c.GetItem now k).1 = "" ∧ (c.GetItem now k).2.Cache k = none) ∧
    (∀ s : Storage, ∀ k d, s.GetItem k = "" → s.GetInt k d = d) ∧
    (∀ s : Storage, ∀ k d, s.GetItem k = "" → s.GetBool k d = d) ∧
    (∀ F : Type, ∀ parse : String → Option F, ∀ s : Storage, ∀ k d,
      s.GetItem k = "" → Storage.GetFloatWith parse s k d = d) ∧
    (∀ s : Storage, ∀ k target, s.GetItem k = "" → s.GetJSON k target = .ok target) ∧
    (∀ α : Type, ∀ encode : α → String, ∀ v : α, encode v = "" →
      ∀ s : Storage, ∀ k d, ((s.SetItem k (encode v)).1).GetInt k d = d) := by
  refine ⟨?_, ?_, ?_, ?_, ?_, ?_, ?_, ?_⟩
  · intro s k h
    unfold Storage.GetItem
    rw [h]
  · intro s k h
    unfold Storage.GetItem
    rw [h]
  · intro c now k hmiss hst
    have h := getItem_miss c now k hmiss
    exact ⟨by rw [h.1, hst], h.2.2 hst⟩
  · intro s k d h
    unfold Storage.GetInt
    rw [h]
    simp
  · intro s k d h
    unfold Storage.GetBool
    rw [h]
    simp
  · intro F parse s k d h
    unfold Storage.GetFloatWith
    rw [h]
    simp
  · intro s k target h
    unfold Storage.GetJSON
    rw [h]
    simp
  · intro α encode v hv s k d
    have hget : ((s.SetItem k (encode v)).1).GetItem k = "" := by
      unfold Storage.GetItem Storage.SetItem JSStore.set JSStore.get
      simp [hv]
    unfold Storage.GetInt
    rw [hget]
    simp

/-- C10 witness: the conflation at concrete inputs — an absent key reads as
`""`, a stored `""` makes `getInt` return the default, and a value encoded
as `""` fails to round-trip (the default 9 comes back). -/
theorem C10_empty_string_absence_conflation_witness :
    (Storage.GetItem ⟨JSStore.empty⟩ "k" = "") ∧
    (Storage.GetInt ⟨fun q => if q = "k" then some "" else none⟩ "k" 7 = 7) ∧
    (((Storage.SetItem ⟨JSStore.empty⟩ "k" "").1).GetInt "k" 9 = 9) := by
  have h := C10_empty_string_absence_conflation
  exact ⟨h.1 ⟨JSStore.empty⟩ "k" rfl,
    h.2.2.2.1 ⟨fun q => if q = "k" then some "" else none⟩ "k" 7 rfl,
    h.2.2.2.2.2.2.2 String (fun _ => "") "x" rfl ⟨JSStore.empty⟩ "k" 9⟩

/-- A listener that panics (models an observer raising an error). -/
def obsPanicking : ObserverBehavior := fun _ => some "listener panic"

/-- A listener that returns normally. -/
def obsOk : ObserverBehavior := fun _ => none

/-- Concrete observer registry for C9: two listeners registered on `"k"`,
the first of which panics. -/
def c9observers : String → List (String × ObserverBehavior) :=
  fun q => if q = "k" then [("L1", obsPanicking), ("L2", obsOk)] else []

/-- C9 (code bug, evaluated at the failing input): with listeners `L1` (which
panics) then `L2` registered on `"k"`, the dispatch triggered by
`SetItem("k", "v")` runs only `L1` — `L2` is skipped — and the panic escapes
`SetItem` to the mutating caller: `notifyObservers` has no `recover`, so
listener failures are neither isolated from later listeners nor from the
mutation. -/
theorem C9_listener_panic_aborts_dispatch :
    (Storage.SetItemObserved ⟨JSStore.empty⟩ c9observers "k" "v").2 =
      (["L1"], some "listener panic") ∧
    notifyObservers c9observers ⟨"k", "", "v"⟩ = (["L1"], some "listener panic") :=
  ⟨rfl, rfl⟩

/-- After persisting version 2, the migrator reads 2 back whatever the store
held before (`Atoi (Itoa 2) = 2`). -/
theorem getVersion_after_set_two (s : Storage) :
    GetCurrentVersion (SetCurrentVersion s 2) = 2 := rfl

/-- When the persisted version is not below the target, `RunMigration`
returns at once: body not invoked, state untouched. -/
theorem runMigration_no_invoke (st : AppState) (targetVersion : Int)
    (body : Int → Int → AppState → AppState × GoResult)
    (h : ¬ GetCurrentVersion st.cached.storage < targetVersion) :
    RunMigration st targetVersion body = (st, .ok, false) := by
  unfold RunMigration
  rw [if_neg h]

/-- C3 (amended): `RunMigration` invokes the body iff the persisted current
version (default 0) is strictly less than the target; on a body error it
returns that error with the state exactly as the body left it, writing no
version; on body success it persists the target as the new schema version;
and running `RunMigration(2, body)` twice invokes the body at most once with
the second run a no-op — provided the first run does not return an error (a
failed first run leaves the version untouched and is retried, see the
counterexample). -/
theorem C3_runMigration_version_gate (st : AppState) (targetVersion : Int)
    (body : Int → Int → AppState → AppState × GoResult) :
    ((RunMigration st targetVersion body).2.2 = true ↔
      GetCurrentVersion st.cached.storage < targetVersion) ∧
    (∀ st1 e,
      GetCurrentVersion st.cached.storage < targetVersion →
      body (GetCurrentVersion st.cached.storage) targetVersion st = (st1, .err e) →
      RunMigration st targetVersion body = (st1, .err e, true)) ∧
    (∀ st1,
      GetCurrentVersion st.cached.storage < targetVersion →
      body (GetCurrentVersion st.cached.storage) targetVersion st = (st1, .ok) →
      (RunMigration st targetVersion body).1.cached.storage =
        SetCurrentVersion st1.cached.storage targetVersion ∧
      (RunMigration st targetVersion body).2.1 = .ok) ∧
    ((RunMigration st 2 body).2.1 = .ok →
      RunMigration (RunMigration st 2 body).1 2 body =
        ((RunMigration st 2 body).1, .ok, false) ∧
      ((if (RunMigration st 2 body).2.2 then 1 else 0) +
        (if (RunMigration (RunMigration st 2 body).1 2 body).2.2 then 1 else 0) : Nat)
        ≤ 1) := by
  refine ⟨?_, ?_, ?_, ?_⟩
  · unfold RunMigration
    by_cases hcur : GetCurrentVersion st.cached.storage < targetVersion
    · rw [if_pos hcur]
      rcases hb : body (GetCurrentVersion st.cached.storage) targetVersion st with ⟨st1, r⟩
      cases r <;> simp [hb, hcur]
    · rw [if_neg hcur]
      simp [hcur]
  · intro st1 e hcur hb
    unfold RunMigration
    rw [if_pos hcur, hb]
  · intro st1 hcur hb
    unfold RunMigration
    rw [if_pos hcur, hb]
    exact ⟨rfl, rfl⟩
  · intro hok
    by_cases hcur : GetCurrentVersion st.cached.storage < 2
    · rcases hb : body (GetCurrentVersion st.cached.storage) 2 st with ⟨st1, r⟩
      cases r with
      | ok =>
        have h1 : RunMigration st 2 body =
            ({ st1 with cached :=
                { st1.cached with storage := SetCurrentVersion st1.cached.storage 2 } },
              .ok, true) := by
          unfold RunMigration
          rw [if_pos hcur, hb]
        have hver : GetCurrentVersion (RunMigration st 2 body).1.cached.storage = 2 := by
          rw [h1]
          exact getVersion_after_set_two st1.cached.storage
        have h2 : RunMigration (RunMigration st 2 body).1 2 body =
            ((RunMigration st 2 body).1, .ok, false) :=
          runMigration_no_invoke _ 2 body (by rw [hver]; omega)
        refine ⟨h2, ?_⟩
        rw [h2, h1]
        simp
      | err e =>
        have h1 : RunMigration st 2 body = (st1, .err e, true) := by
          unfold RunMigration
          rw [if_pos hcur, hb]
        rw [h1] at hok
        exact absurd hok (by simp)
      | panic m =>
        have h1 : RunMigration st 2 body = (st1, .panic m, true) := by
          unfold RunMigration
          rw [if_pos hcur, hb]
        rw [h1] at hok
        exact absurd hok (by simp)
    · have h1 : RunMigration st 2 body = (st, .ok, false) :=
        runMigration_no_invoke st 2 body hcur
      have h2 : RunMigration (RunMigration st 2 body).1 2 body =
          ((RunMigration st 2 body).1, .ok, false) := by
        rw [h1]
        exact runMigration_no_invoke st 2 body hcur
      refine ⟨h2, ?_⟩
      rw [h2, h1]
      simp

/-- App state with an empty browser store (so the schema version reads as the
default 0) and no todos. -/
def st0 : AppState := ⟨NewCachedStorage ⟨JSStore.empty⟩ 300, []⟩

/-- A migration body that always fails. -/
def bodyFail : Int → Int → AppState → AppState × GoResult :=
  fun _ _ s => (s, .err "boom")

/-- C3 counterexample: with the version at its default 0 and a failing body,
`RunMigration(2, body)` run twice invokes the body on both runs — the
version is not advanced after the failure, so "twice in sequence invokes the
body at most once" is false for a general body. -/
theorem C3_failing_body_invoked_twice :
    (RunMigration st0 2 bodyFail).2.2 = true ∧
    (RunMigration (RunMigration st0 2 bodyFail).1 2 bodyFail).2.2 = true :=
  ⟨rfl, rfl⟩

/-- A migration body that succeeds without touching the state. -/
def bodyNoop : Int → Int → AppState → AppState × GoResult :=
  fun _ _ s => (s, .ok)

/-- C3 witness: the theorem at the empty store with a succeeding body — the
second run is a no-op and the body runs at most once. -/
theorem C3_runMigration_version_gate_witness :
    RunMigration (RunMigration st0 2 bodyNoop).1 2 bodyNoop =
      ((RunMigration st0 2 bodyNoop).1, .ok, false) ∧
    ((if (RunMigration st0 2 bodyNoop).2.2 then 1 else 0) +
      (if (RunMigration (RunMigration st0 2 bodyNoop).1 2 bodyNoop).2.2 then 1 else 0) :
      Nat) ≤ 1 :=
  (C3_runMigration_version_gate st0 2 bodyNoop).2.2.2 rfl

/-- The C4 failing input: a stored record list whose single record lacks the
required `id` field (otherwise well formed). -/
def c4json : String :=
  encodeJson (.arr [.obj [("text", .str "a"), ("completed", .bool false),
    ("createdAt", .num 100)]])

/-- App state for C4: the store holds the malformed record list and no schema
version (so the current version defaults to 0). -/
def c4state : AppState :=
  ⟨NewCachedStorage ⟨fun q => if q = todosKey then some c4json else none⟩ 300, []⟩

/-- C4 (code bug, evaluated at the failing input): on a record missing the
required `id` field, the migration body does not surface an error to
`runMigration` — the unchecked type assertion `oldTodo["id"].(string)`
panics (a crash), and the version marker is not advanced only because the
process dies. -/
theorem C4_missing_required_field_panics :
    (RunMigration c4state 2 (migrateTodoSchema 0)).2.1 =
      .panic "interface conversion to string" ∧
    (∀ e, (RunMigration c4state 2 (migrateTodoSchema 0)).2.1 ≠ .err e) ∧
    GetCurrentVersion (RunMigration c4state 2 (migrateTodoSchema 0)).1.cached.storage = 0 := by
  refine ⟨rfl, ?_, rfl⟩
  intro e h
  rw [show (RunMigration c4state 2 (migrateTodoSchema 0)).2.1 =
    .panic "interface conversion to string" from rfl] at h
  exact absurd h (by simp)

/-- A well-formed legacy (pre-version-2) todo record as the claim describes:
exactly the four required fields in stored order, each well-typed. -/
structure LegacyRecord where
  id : String
  text : String
  completed : Bool
  createdAt : Int
deriving DecidableEq

/-- The field list of a legacy record as unmarshalled. -/
def legacyFields (l : LegacyRecord) : List (String × Json) :=
  [("id", .str l.id), ("text", .str l.text), ("completed", .bool l.completed),
   ("createdAt", .num l.createdAt)]

/-- A legacy record as a JSON object. -/
def legacyJson (l : LegacyRecord) : Json := .obj (legacyFields l)

/-- The todo the migration loop builds from legacy record `l` at index `i`. -/
def migratedTodo (i : Nat) (l : LegacyRecord) : Todo :=
  ⟨l.id, l.text, l.completed, l.createdAt, Int.ofNat i, 0, []⟩

/-- Unmarshalling an array of legacy-record objects into
`[]map[string]interface{}` succeeds with their field lists. -/
theorem jsonToRecords_legacy (ls : List LegacyRecord) :
    jsonToRecords (.arr (ls.map legacyJson)) = some (ls.map legacyFields) := by
  show (ls.map legacyJson).foldr
      (fun x acc =>
        match x, acc with
        | .obj fs, some l => some (fs :: l)
        | .null, some l => some ([] :: l)
        | _, _ => none)
      (some []) = some (ls.map legacyFields)
  induction ls with
  | nil => rfl
  | cons l rest ih =>
    simp only [List.map_cons, List.foldr_cons, ih]
    rfl

/-- One loop iteration on a well-formed legacy record: every type assertion
succeeds and the new fields are `position = i`, `priority = 0`, `tags = []`. -/
theorem buildTodo_legacy (i : Nat) (l : LegacyRecord) :
    buildTodo i (legacyFields l) = .ok (migratedTodo i l) := rfl

/-- The migration loop on well-formed legacy records succeeds and assigns
each record its index as position. -/
theorem migrateLoop_legacy (ls : List LegacyRecord) :
    ∀ i, migrateLoop i (ls.map legacyFields) =
      .ok ((List.enumFrom i ls).map fun p => migratedTodo p.1 p.2) := by
  induction ls with
  | nil => intro i; rfl
  | cons l rest ih =>
    intro i
    show (do
      let t ← buildTodo i (legacyFields l)
      let ts ← migrateLoop (i + 1) (rest.map legacyFields)
      pure (t :: ts) : Except String (List Todo)) = _
    rw [buildTodo_legacy, ih (i + 1)]
    rfl

/-- An empty document never parses. -/
theorem parseJson_empty : parseJson "" = none := rfl

/-- Models the JS-store read-after-write laws used below. -/
theorem jsStore_get_set_same (s : JSStore) (k v : String) :
    (s.set k v).get k = some v := by
  unfold JSStore.set JSStore.get
  simp

/-- Writes to a different key are invisible. -/
theorem jsStore_get_set_ne (s : JSStore) (k q v : String) (h : q ≠ k) :
    (s.set k v).get q = s.get q := by
  show (if q = k then some v else s q) = s q
  rw [if_neg h]

/-- The migration body on a stored list of well-formed legacy records (read
through a cold cache): it succeeds, assigns the global `todos` to the
migrated records and writes them back through the cached storage. -/
theorem migrate_body_legacy (st : AppState) (now cur : Int) (enc : String)
    (ls : List LegacyRecord) (hne : ls ≠ [])
    (hcache : st.cached.Cache todosKey = none)
    (henc : st.cached.storage.storageObj.get todosKey = some enc)
    (hparse : parseJson enc = some (.arr (ls.map legacyJson)))
    (hcur : cur < 2) :
    migrateTodoSchema now cur 2 st =
      (⟨((st.cached.GetItem now todosKey).2.SetJSON now todosKey
          (jsonOfTodos (ls.enum.map fun p => migratedTodo p.1 p.2))).1,
        ls.enum.map fun p => migratedTodo p.1 p.2⟩, .ok) := by
  have hencne : enc ≠ "" := by
    intro h
    rw [h, parseJson_empty] at hparse
    exact absurd hparse (by simp)
  have hsv : st.cached.storage.GetItem todosKey = enc := by
    unfold Storage.GetItem
    rw [henc]
  have g1 : (st.cached.GetItem now todosKey).1 = enc := by
    rw [(getItem_miss st.cached now todosKey (Or.inl hcache)).1, hsv]
  cases ls with
  | nil => exact absurd rfl hne
  | cons l0 ls1 =>
    unfold migrateTodoSchema
    simp only [g1]
    rw [if_neg hencne]
    simp only [hparse]
    rw [jsonToRecords_legacy (l0 :: ls1)]
    simp only [List.map_cons]
    rw [if_pos (⟨hcur, by norm_num⟩ : cur < 2 ∧ (2 : Int) ≥ 2)]
    have hloop := migrateLoop_legacy (l0 :: ls1) 0
    simp only [List.map_cons] at hloop
    rw [hloop]
    rfl

/-- C8: for every nonempty stored list of well-formed legacy records (each
carrying well-typed `id`, `text`, `completed`, `createdAt`), read through a
cold cache with the persisted version below 2, `RunMigration(2,
migrateTodoSchema)` succeeds; the stored todo list becomes exactly the
original records extended with `position = index in stored order`,
`priority = 0`, `tags = []`; and the persisted schema version becomes 2. -/
theorem C8_migration_extends_legacy_records (st : AppState) (now : Int) (enc : String)
    (ls : List LegacyRecord) (hne : ls ≠ [])
    (hcache : st.cached.Cache todosKey = none)
    (henc : st.cached.storage.storageObj.get todosKey = some enc)
    (hparse : parseJson enc = some (.arr (ls.map legacyJson)))
    (hver : GetCurrentVersion st.cached.storage < 2) :
    (RunMigration st 2 (migrateTodoSchema now)).2.1 = .ok ∧
    (RunMigration st 2 (migrateTodoSchema now)).1.cached.storage.storageObj.get todosKey =
      some (encodeJson (jsonOfTodos (ls.enum.map fun p => migratedTodo p.1 p.2))) ∧
    GetCurrentVersion (RunMigration st 2 (migrateTodoSchema now)).1.cached.storage = 2 ∧
    (ls.enum.map fun p => jsonOfTodo (migratedTodo p.1 p.2)) =
      ls.enum.map fun p =>
        Json.obj (legacyFields p.2 ++
          [("position", .num (Int.ofNat p.1)), ("priority", .num 0),
           ("tags", .arr [])]) := by
  have hbody := migrate_body_legacy st now (GetCurrentVersion st.cached.storage) enc ls
    hne hcache henc hparse hver
  have hcs : (st.cached.GetItem now todosKey).2.storage = st.cached.storage :=
    getItem_storage_unchanged st.cached now todosKey
  have hrun : RunMigration st 2 (migrateTodoSchema now) =
      (⟨{ ((st.cached.GetItem now todosKey).2.SetJSON now todosKey
            (jsonOfTodos (ls.enum.map fun p => migratedTodo p.1 p.2))).1 with
          storage := SetCurrentVersion
            (((st.cached.GetItem now todosKey).2.SetJSON now todosKey
                (jsonOfTodos (ls.enum.map fun p => migratedTodo p.1 p.2))).1.storage) 2 },
        ls.enum.map fun p => migratedTodo p.1 p.2⟩, .ok, true) := by
    unfold RunMigration
    rw [if_pos hver, hbody]
  refine ⟨by rw [hrun], ?_, ?_, rfl⟩
  · rw [hrun]
    show (((((st.cached.GetItem now todosKey).2.SetJSON now todosKey
        (jsonOfTodos (ls.enum.map fun p => migratedTodo p.1 p.2))).1.storage).storageObj.set
          currentVersionKey (itoa 2)).get todosKey) = _
    rw [jsStore_get_set_ne _ _ _ _ (by decide)]
    show (((st.cached.GetItem now todosKey).2.storage.storageObj.set todosKey
        (encodeJson (jsonOfTodos (ls.enum.map fun p => migratedTodo p.1 p.2)))).get
          todosKey) = _
    rw [jsStore_get_set_same]
  · rw [hrun]
    exact getVersion_after_set_two _

/-- The claim's example legacy records. -/
def c8legacy : List LegacyRecord :=
  [⟨"1", "a", false, 100⟩, ⟨"2", "b", true, 200⟩]

/-- App state for the C8 witness: the store holds the encoded legacy records
and no schema version (so the version reads as 0); the cache is cold. -/
def c8state : AppState :=
  ⟨NewCachedStorage
    ⟨fun q =>
      if q = todosKey then some (encodeJson (.arr (c8legacy.map legacyJson))) else none⟩
    300, []⟩

/-- C8 witness: the theorem at the claim's example — the two records migrate
to themselves extended with positions 0 and 1, priority 0 and empty tags,
and the persisted version becomes 2. -/
theorem C8_migration_extends_legacy_records_witness :
    (RunMigration c8state 2 (migrateTodoSchema 0)).2.1 = .ok ∧
    (RunMigration c8state 2 (migrateTodoSchema 0)).1.cached.storage.storageObj.get
        todosKey =
      some (encodeJson (jsonOfTodos (c8legacy.enum.map fun p => migratedTodo p.1 p.2))) ∧
    GetCurrentVersion (RunMigration c8state 2 (migrateTodoSchema 0)).1.cached.storage = 2 ∧
    (c8legacy.enum.map fun p => jsonOfTodo (migratedTodo p.1 p.2)) =
      c8legacy.enum.map fun p =>
        Json.obj (legacyFields p.2 ++
          [("position", .num (Int.ofNat p.1)), ("priority", .num 0),
           ("tags", .arr [])]) :=
  C8_migration_extends_legacy_records c8state 0
    (encodeJson (.arr (c8legacy.map legacyJson))) c8legacy
    (by decide) rfl rfl rfl (by decide)
